import Mathlib

set_option maxHeartbeats 1000000
set_option linter.unusedVariables false

/-!
Shallow embedding of kern/monitor.c from the MyJos kernel: the monitor
command loop, its tokenizer and dispatcher, and the mon_help, mon_kerninfo,
mon_backtrace and mon_showmappings handlers, together with theorems about
their behaviour.  Machine integers are modelled as Nat with explicit
reduction modulo 2 to the 32 where the C code computes in uint32_t.
-/

/-- The WHITESPACE character set of the source: tab, carriage return, newline, space. -/
def isWhite (c : Char) : Bool :=
  c == '\t' || c == '\r' || c == '\n' || c == ' '

/-- The scan-past-token condition of runcmd: not a whitespace character. -/
def notWhite (c : Char) : Bool := !(isWhite c)

/-- MAXARGS from the source: capacity of the argv array. -/
def MAXARGS : Nat := 16

/-- Turns a string literal into the character list the embedding works on
(a C string read from the line buffer). -/
def toL (s : String) : List Char := s.toList

/-- A character list dropped while a predicate holds never gets longer. -/
theorem length_dropWhile_le (p : Char → Bool) :
    ∀ cs : List Char, (cs.dropWhile p).length ≤ cs.length := by
  intro cs
  induction cs with
  | nil => simp [List.dropWhile]
  | cons a l ih =>
    by_cases hp : p a
    · rw [List.dropWhile_cons_of_pos hp]
      exact Nat.le_trans ih (Nat.le_succ _)
    · rw [List.dropWhile_cons_of_neg hp]

/-- The head surviving a dropWhile fails the predicate. -/
theorem head_of_dropWhile_eq_cons (p : Char → Bool) :
    ∀ (cs : List Char) c rest, cs.dropWhile p = c :: rest → p c = false := by
  intro cs
  induction cs with
  | nil => intro c rest h; simp [List.dropWhile] at h
  | cons a l ih =>
    intro c rest h
    by_cases hp : p a
    · rw [List.dropWhile_cons_of_pos hp] at h
      exact ih c rest h
    · rw [List.dropWhile_cons_of_neg hp] at h
      cases h
      exact Bool.of_not_eq_true hp

/-- Scanning past a token after gobbling whitespace strictly shrinks a
nonempty rest of the buffer (the progress fact behind the runcmd loop). -/
theorem split_rest_lt (cs : List Char) (h : cs.dropWhile isWhite ≠ []) :
    ((cs.dropWhile isWhite).dropWhile notWhite).length < cs.length := by
  obtain ⟨c, rest, hcr⟩ := List.exists_cons_of_ne_nil h
  have hw : isWhite c = false := head_of_dropWhile_eq_cons _ cs c rest hcr
  have h1 : (cs.dropWhile isWhite).length ≤ cs.length := length_dropWhile_le _ _
  have h3 : rest.length + 1 = (cs.dropWhile isWhite).length := by rw [hcr]; simp
  rw [hcr, List.dropWhile_cons_of_pos (by simp [notWhite, hw])]
  have h2 : (rest.dropWhile notWhite).length ≤ rest.length := length_dropWhile_le _ _
  omega

/-- The token-splitting semantics of the argument-gobbling loop of runcmd
(lines 145 to 163 of kern/monitor.c), without the MAXARGS capacity check:
repeatedly discard a run of whitespace and collect the following maximal
run of non-whitespace characters. -/
def tokensU (cs : List Char) : List (List Char) :=
  if h : cs.dropWhile isWhite = [] then []
  else
    ((cs.dropWhile isWhite).takeWhile notWhite) ::
      tokensU ((cs.dropWhile isWhite).dropWhile notWhite)
termination_by cs.length
decreasing_by
  exact split_rest_lt cs h

/-- The argument-gobbling loop of runcmd (lines 145 to 163 of kern/monitor.c):
gobble whitespace, stop at the end of the buffer, report an error (none) when
a token is found while argc is already MAXARGS - 1, otherwise record the token
and scan past it. -/
def splitLoop (cs : List Char) (argc : Nat) : Option (List (List Char)) :=
  if h : cs.dropWhile isWhite = [] then some []
  else if argc = MAXARGS - 1 then none
  else
    (splitLoop ((cs.dropWhile isWhite).dropWhile notWhite) (argc + 1)).map
      (fun ts => ((cs.dropWhile isWhite).takeWhile notWhite) :: ts)
termination_by cs.length
decreasing_by
  exact split_rest_lt cs h

/-- Tokens joined back with single spaces: the already-separated form of a line. -/
def rejoin : List (List Char) → List Char
  | [] => []
  | [t] => t
  | t :: t2 :: ts => t ++ ' ' :: rejoin (t2 :: ts)

/-- Every token the gobbling loop produces is a nonempty run of non-whitespace. -/
theorem tokensU_sound_aux : ∀ (n : Nat) (buf : List Char), buf.length ≤ n →
    ∀ t ∈ tokensU buf, t ≠ [] ∧ ∀ c ∈ t, isWhite c = false := by
  intro n
  induction n with
  | zero =>
    intro buf hb t ht
    have : buf = [] := List.length_eq_zero.mp (Nat.le_zero.mp hb)
    subst this
    simp [tokensU, List.dropWhile] at ht
  | succ m ih =>
    intro buf hb t ht
    rw [tokensU] at ht
    by_cases h : buf.dropWhile isWhite = []
    · rw [dif_pos h] at ht
      simp at ht
    · rw [dif_neg h] at ht
      obtain ⟨c, rest, hcr⟩ := List.exists_cons_of_ne_nil h
      have hw : isWhite c = false := head_of_dropWhile_eq_cons _ buf c rest hcr
      rcases List.mem_cons.mp ht with rfl | ht2
      · constructor
        · rw [hcr, List.takeWhile_cons_of_pos (by simp [notWhite, hw])]
          simp
        · intro d hd
          have := List.mem_takeWhile_imp hd
          simpa [notWhite] using this
      · have hlt : ((buf.dropWhile isWhite).dropWhile notWhite).length < buf.length :=
          split_rest_lt buf h
        exact ih ((buf.dropWhile isWhite).dropWhile notWhite) (by omega) t ht2

/-- tokensU_sound_aux at the natural fuel. -/
theorem tokensU_sound (buf : List Char) :
    ∀ t ∈ tokensU buf, t ≠ [] ∧ ∀ c ∈ t, isWhite c = false :=
  tokensU_sound_aux buf.length buf (Nat.le_refl _)

/-- The capped gobbling loop agrees with the uncapped splitting semantics:
it succeeds, with the same tokens, exactly when at most 15 tokens in total
get stored. -/
theorem splitLoop_eq_aux : ∀ (n : Nat) (buf : List Char), buf.length ≤ n →
    ∀ argc, argc ≤ 15 →
    splitLoop buf argc =
      if argc + (tokensU buf).length ≤ 15 then some (tokensU buf) else none := by
  intro n
  induction n with
  | zero =>
    intro buf hb argc ha
    have : buf = [] := List.length_eq_zero.mp (Nat.le_zero.mp hb)
    subst this
    rw [splitLoop, tokensU]
    simp [List.dropWhile, ha]
  | succ m ih =>
    intro buf hb argc ha
    rw [splitLoop, tokensU]
    by_cases h : buf.dropWhile isWhite = []
    · rw [dif_pos h, dif_pos h]
      simp [ha]
    · rw [dif_neg h, dif_neg h]
      have hlt : ((buf.dropWhile isWhite).dropWhile notWhite).length < buf.length :=
        split_rest_lt buf h
      by_cases hc : argc = MAXARGS - 1
      · rw [if_pos hc]
        have hfalse : ¬ (argc + ((buf.dropWhile isWhite).takeWhile notWhite ::
            tokensU ((buf.dropWhile isWhite).dropWhile notWhite)).length ≤ 15) := by
          simp only [MAXARGS] at hc
          simp [hc, List.length_cons]
        rw [if_neg hfalse]
      · rw [if_neg hc]
        have ha1 : argc + 1 ≤ 15 := by
          simp only [MAXARGS] at hc
          omega
        rw [ih _ (by omega) (argc + 1) ha1]
        by_cases hcond :
            argc + 1 + (tokensU ((buf.dropWhile isWhite).dropWhile notWhite)).length ≤ 15
        · rw [if_pos hcond, if_pos (by simp [List.length_cons]; omega)]
          rfl
        · rw [if_neg hcond, if_neg (by simp [List.length_cons]; omega)]
          rfl

/-- splitLoop as runcmd calls it, with argc starting at 0. -/
theorem splitLoop_zero (buf : List Char) :
    splitLoop buf 0 =
      if (tokensU buf).length ≤ 15 then some (tokensU buf) else none := by
  have := splitLoop_eq_aux buf.length buf (Nat.le_refl _) 0 (by omega)
  simpa using this

/-- A leading whitespace character does not change the produced tokens. -/
theorem tokensU_cons_white (c : Char) (hc : isWhite c = true) (cs : List Char) :
    tokensU (c :: cs) = tokensU cs := by
  conv_lhs => rw [tokensU]
  conv_rhs => rw [tokensU]
  rw [List.dropWhile_cons_of_pos hc]

/-- Tokenizing the already-separated form of a token list gives it back. -/
theorem tokensU_rejoin : ∀ ts : List (List Char),
    (∀ t ∈ ts, t ≠ [] ∧ ∀ c ∈ t, isWhite c = false) →
    tokensU (rejoin ts) = ts := by
  intro ts
  induction ts with
  | nil =>
    intro hts
    simp [rejoin, tokensU, List.dropWhile]
  | cons t ts ih =>
    intro hts
    obtain ⟨htne, htw⟩ := hts t (by simp)
    obtain ⟨c, t', rfl⟩ := List.exists_cons_of_ne_nil htne
    have hcw : isWhite c = false := htw c (by simp)
    have hall : ∀ d ∈ t', notWhite d = true := by
      intro d hd
      simp [notWhite, htw d (by simp [hd])]
    cases ts with
    | nil =>
      have hallc : ∀ d ∈ c :: t', notWhite d = true := by
        intro d hd
        simp [notWhite, htw d hd]
      rw [rejoin, tokensU]
      rw [dif_neg (by rw [List.dropWhile_cons_of_neg (by simp [hcw])]; simp)]
      rw [List.dropWhile_cons_of_neg (by simp [hcw])]
      rw [List.takeWhile_eq_self_iff.mpr hallc]
      rw [List.dropWhile_eq_nil_iff.mpr hallc]
      rw [tokensU]
      simp [List.dropWhile]
    | cons t2 ts2 =>
      show tokensU ((c :: t') ++ ' ' :: rejoin (t2 :: ts2)) = (c :: t') :: t2 :: ts2
      simp only [List.cons_append]
      rw [tokensU]
      rw [dif_neg (by rw [List.dropWhile_cons_of_neg (by simp [hcw])]; simp)]
      rw [List.dropWhile_cons_of_neg (by simp [hcw])]
      rw [List.takeWhile_cons_of_pos (by simp [notWhite, hcw])]
      rw [List.dropWhile_cons_of_pos (by simp [notWhite, hcw])]
      rw [List.takeWhile_append_of_pos hall]
      rw [List.dropWhile_append_of_pos hall]
      rw [List.takeWhile_cons_of_neg (by simp [notWhite, isWhite])]
      rw [List.dropWhile_cons_of_neg (by simp [notWhite, isWhite])]
      rw [tokensU_cons_white ' ' (by simp [isWhite])]
      rw [ih (by intro u hu; exact hts u (by simp [hu]))]
      simp

/-- The registered command table of the source (names and descriptions;
the handler column is modelled separately because the embedded handlers
are parametrised by their external collaborators). -/
def commands : List (List Char × List Char) :=
  [(toL "help", toL "Display this list of commands"),
   (toL "kerninfo", toL "Display information about the kernel"),
   (toL "backtrace", toL "Display backtrace"),
   (toL "showmappings", toL "Display mappings between physical address and virtual address")]

/-- The names of the registered commands, in registry order. -/
def commandNames : List (List Char) := commands.map Prod.fst

/-- Which branch of runcmd handled the line. -/
inductive RunOutcome where
  | tooMany
  | blank
  | unknown (t : List Char)
  | ran (name : List Char) (argv : List (List Char))
deriving DecidableEq

/-- runcmd (lines 137 to 174 of kern/monitor.c), parametrised by the command
table, given as name-and-handler pairs where a handler maps the argument
vector (command name included as token 0) to its int return value: tokenize
the buffer, return 0 on overflow or on a blank line, search the table in
order for an exact name match, invoke the handler on a hit, report an
unknown command and return 0 otherwise. -/
def runcmd (table : List (List Char × (List (List Char) → Int)))
    (buf : List Char) : RunOutcome × Int :=
  match splitLoop buf 0 with
  | none => (RunOutcome.tooMany, 0)
  | some [] => (RunOutcome.blank, 0)
  | some (t :: ts) =>
    match table.find? (fun c => c.1 == t) with
    | some c => (RunOutcome.ran c.1 (t :: ts), c.2 (t :: ts))
    | none => (RunOutcome.unknown t, 0)

/-- The loop-termination test of monitor (line 188 of kern/monitor.c):
the monitor breaks out of its loop exactly when runcmd returns a negative value. -/
def monitorStep (table : List (List Char × (List (List Char) → Int)))
    (buf : List Char) : Bool :=
  decide ((runcmd table buf).2 < 0)

/-- How a finite run of the monitor loop ended. -/
inductive MonEnd where
  | stopped
  | exhausted
deriving DecidableEq

/-- The monitor loop (lines 176 to 191 of kern/monitor.c) over a finite
stream of readline results: a null line is retried, otherwise the line is
fed to runcmd and the loop breaks when the return value is negative. -/
def monitorRun (table : List (List Char × (List (List Char) → Int))) :
    List (Option (List Char)) → MonEnd
  | [] => MonEnd.exhausted
  | none :: rest => monitorRun table rest
  | some buf :: rest =>
    if monitorStep table buf then MonEnd.stopped else monitorRun table rest

/-! ## mon_help and mon_kerninfo -/

/-- mon_help (lines 34 to 42): print one name - description line per
registered command, return 0. -/
def mon_help (argv : List (List Char)) : List (List Char) × Int :=
  (commands.map (fun c => c.1 ++ toL " - " ++ c.2), 0)

/-- The five linker symbols mon_kerninfo prints (external to the unit). -/
structure KernSyms where
  kstart : Nat
  entry : Nat
  etext : Nat
  edata : Nat
  kend : Nat

/-- 2 to the 32, the size of the uint32_t value range. -/
def U32 : Nat := 4294967296

/-- 32-bit unsigned subtraction, as performed by the pointer arithmetic
of mon_kerninfo. -/
def u32sub (a b : Nat) : Nat := (a % U32 + (U32 - b % U32)) % U32

/-- Modelled from the spec: the ROUNDDOWN alignment macro (inc/types.h is
not under src/); the spec requires rounding to use floor division exactly. -/
def ROUNDDOWN (a n : Nat) : Nat := a - a % n

/-- Modelled from the spec: the ROUNDUP alignment macro (inc/types.h is
not under src/); the spec requires rounding to use ceiling division exactly. -/
def ROUNDUP (a n : Nat) : Nat := ROUNDDOWN (a + n - 1) n

/-- mon_kerninfo (lines 44 to 58): print the five kernel symbols as
virtual and physical address pairs plus the footprint in KB, return 0. -/
def mon_kerninfo (KERNBASE : Nat) (ks : KernSyms) (argv : List (List Char)) :
    (List (Nat × Nat) × Nat) × Int :=
  (([(ks.kstart % U32, ks.kstart % U32),
     (ks.entry % U32, u32sub ks.entry KERNBASE),
     (ks.etext % U32, u32sub ks.etext KERNBASE),
     (ks.edata % U32, u32sub ks.edata KERNBASE),
     (ks.kend % U32, u32sub ks.kend KERNBASE)],
    ROUNDUP (u32sub ks.kend ks.entry) 1024 / 1024), 0)

/-! ## mon_backtrace -/

/-- struct Eipdebuginfo from kern/kdebug.h, as filled in by the external
debuginfo_eip collaborator. -/
structure Eipdebuginfo where
  eip_file : List Char
  eip_line : Nat
  eip_fn_name : List Char
  eip_fn_namelen : Nat
  eip_fn_addr : Nat
deriving DecidableEq

/-- The all-zero Eipdebuginfo record produced by the memset at line 65. -/
def zeroInfo : Eipdebuginfo := ⟨[], 0, [], 0, 0⟩

/-- One line printed by mon_backtrace: the frame pointer, the return
address one word above it, the five words above the return address, the
Eipdebuginfo record as passed to debuginfo_eip for this frame, and the
symbol data printed when resolution succeeded. -/
structure BtLine where
  ebp : Nat
  eip : Nat
  args : List Nat
  infoPassed : Eipdebuginfo
  sym : Option Eipdebuginfo
deriving DecidableEq

/-- The loop of mon_backtrace (lines 67 to 81 of kern/monitor.c) over an
abstract 32-bit word memory (mem a is the word at byte address a) and an
abstract debuginfo_eip collaborator (some means the lookup returned 0 and
filled the record, none means it failed and left the record alone).  The
Nat argument is fuel: none models a walk that has not terminated within
the given number of frames, since the source loop has no depth guard. -/
def mon_backtrace (mem : Nat → Nat) (res : Nat → Option Eipdebuginfo) :
    Nat → Eipdebuginfo → Nat → Option (List BtLine × Int)
  | ebp, _, 0 => if ebp = 0 then some ([], 0) else none
  | ebp, info, fuel + 1 =>
    if ebp = 0 then some ([], 0)
    else
      let eip := mem (ebp + 4)
      let args := (List.range 5).map (fun i => mem (ebp + 4 * (2 + i)))
      let si : Option Eipdebuginfo × Eipdebuginfo :=
        match res eip with
        | some ni => (some ni, ni)
        | none => (none, info)
      match mon_backtrace mem res (mem ebp) si.2 fuel with
      | some out => some (⟨ebp, eip, args, info, si.1⟩ :: out.1, out.2)
      | none => none

/-- mon_backtrace as called (lines 61 to 83): the walk starts at the ebp
register value with the record zeroed once by the memset before the loop. -/
def mon_backtrace_run (mem : Nat → Nat) (res : Nat → Option Eipdebuginfo)
    (ebp fuel : Nat) : Option (List BtLine × Int) :=
  mon_backtrace mem res ebp zeroInfo fuel

/-! ## mon_showmappings -/

/-- PGSIZE: the page size, 4096 bytes. -/
def PGSIZE : Nat := 4096

/-- Modelled from the spec: the x86 page-table-entry flag bits consumed from
inc/mmu.h (not under src/): present. -/
def PTE_P : Nat := 1

/-- Modelled from the spec: the x86 page-table-entry flag bit writable. -/
def PTE_W : Nat := 2

/-- Modelled from the spec: the x86 page-table-entry flag bit user-accessible. -/
def PTE_U : Nat := 4

/-- The PERM flag array of mon_showmappings, in source order. -/
def PERM : List Nat := [PTE_P, PTE_U, PTE_W]

/-- The initial contents of the perm buffer, the string P/U/W, initialised
once per invocation at line 91. -/
def permInit : List Char := ['P', '/', 'U', '/', 'W']

/-- perm_len = strlen("P/U/W") = 5. -/
def perm_len : Nat := 5

/-- The permission-rendering loop of mon_showmappings (lines 117 to 121):
for i = 0, 2, 4 (i < perm_len stepping by 2), overwrite perm at index i
with X when the page-table entry lacks the flag PERM at index i / 2.
The buffer is mutated in place, so the result is fed back into later
iterations of the enclosing page loop. -/
def applyPerm (pte : Nat) (perm : List Char) : List Char :=
  List.foldl
    (fun pm i => if Nat.land (PERM.getD (i / 2) 0) pte = 0 then pm.set i 'X' else pm)
    perm [0, 2, 4]

/-- Is this char accepted as a base-16 digit. -/
def isHexDigit (c : Char) : Bool :=
  (decide ('0' ≤ c) && decide (c ≤ '9')) ||
  (decide ('a' ≤ c) && decide (c ≤ 'f')) ||
  (decide ('A' ≤ c) && decide (c ≤ 'F'))

/-- The numeric value of one base-16 digit. -/
def hexDigitVal (c : Char) : Nat :=
  if decide ('0' ≤ c) && decide (c ≤ '9') then c.toNat - '0'.toNat
  else if decide ('a' ≤ c) && decide (c ≤ 'f') then c.toNat - 'a'.toNat + 10
  else c.toNat - 'A'.toNat + 10

/-- The value of a base-16 digit string, most significant digit first. -/
def hexVal (ds : List Char) : Nat :=
  ds.foldl (fun v d => v * 16 + hexDigitVal d) 0

/-- Modelled from the spec: the C library strtol collaborator (declared in
inc/string.h, implementation not under src/), specialised to base 16 as
mon_showmappings calls it: consume the longest prefix of base-16 digits,
return the parsed value together with the unconsumed remainder (the endptr
position); the spec requires each address string to parse entirely, any
trailing non-numeric character being a parse error for the caller to detect. -/
def strtol16 (s : List Char) : Nat × List Char :=
  (hexVal (s.takeWhile isHexDigit), s.dropWhile isHexDigit)

/-- One printed line of mon_showmappings. -/
inductive SMOut where
  | usage
  | wrongAddress
  | header
  | mapped (va pa : Nat) (perm : List Char)
  | unmapped (va : Nat)
deriving DecidableEq

/-- The virtual address column of a table row (0 for non-row lines). -/
def smVa : SMOut → Nat
  | SMOut.mapped va _ _ => va
  | SMOut.unmapped va => va
  | _ => 0

/-- The page loop of mon_showmappings (lines 112 to 126): for each page
start b below e stepping by PGSIZE, ask the external page_lookup
collaborator (some (pa, pte) models a hit, with pa the physical address
page2pa computes from the PageInfo and pte the word behind the returned
page-table-entry pointer); print a mapped row after mutating the shared
perm buffer, or a NULL NULL row, and continue with the buffer as mutated. -/
def smLoop (lookup : Nat → Option (Nat × Nat)) (b e : Nat) (perm : List Char) :
    List SMOut :=
  if b < e then
    match lookup b with
    | some (pa, pte) =>
      SMOut.mapped b pa (applyPerm pte perm) ::
        smLoop lookup (b + PGSIZE) e (applyPerm pte perm)
    | none => SMOut.unmapped b :: smLoop lookup (b + PGSIZE) e perm
  else []
termination_by e - b
decreasing_by
  all_goals simp [PGSIZE]; omega

/-- mon_showmappings (lines 85 to 129 of kern/monitor.c), parametrised by
the external page_lookup collaborator: check the argument count, parse the
begin address (rounded down to a page start, after the uint32_t cast),
abort with a wrong-address message on a trailing character, derive the
exclusive end (one page further for a single address, the second address
rounded up otherwise, both reduced to uint32_t range), then print the
header and one row per page.  Always returns 0. -/
def mon_showmappings (lookup : Nat → Option (Nat × Nat))
    (argv : List (List Char)) : List SMOut × Int :=
  let argc := argv.length
  if argc = 1 ∨ argc > 3 then ([SMOut.usage], 0)
  else if argc > 1 then
    let p1 := strtol16 (argv.getD 1 [])
    let b := ROUNDDOWN (p1.1 % U32) PGSIZE
    if p1.2 ≠ [] then ([SMOut.wrongAddress], 0)
    else if argc = 2 then
      (SMOut.header :: smLoop lookup b ((b + PGSIZE) % U32) permInit, 0)
    else
      let p2 := strtol16 (argv.getD 2 [])
      let e := ROUNDUP (p2.1 % U32) PGSIZE % U32
      if p2.2 ≠ [] then ([SMOut.wrongAddress], 0)
      else (SMOut.header :: smLoop lookup b e permInit, 0)
  else ([], 0)

/-! ## Claim theorems -/

/-- C6: the tokenizer splits on runs of tab, carriage return, newline and
space: tokenizing "  a   b\tc\n" yields exactly the tokens a, b, c; no empty
token ever appears in a produced argument vector; and tokenization is
idempotent on already-separated input (re-tokenizing the tokens joined by
single spaces reproduces them). -/
theorem C6_tokenizer :
    splitLoop (toL "  a   b\tc\n") 0 = some [toL "a", toL "b", toL "c"] ∧
    (∀ buf ts, splitLoop buf 0 = some ts → ∀ t ∈ ts, t ≠ []) ∧
    (∀ buf ts, splitLoop buf 0 = some ts → splitLoop (rejoin ts) 0 = some ts) := by
  refine ⟨?_, ?_, ?_⟩
  · simp [splitLoop, toL, isWhite, notWhite, MAXARGS, List.dropWhile, List.takeWhile]
  · intro buf ts hs t ht
    rw [splitLoop_zero] at hs
    by_cases hlen : (tokensU buf).length ≤ 15
    · rw [if_pos hlen] at hs
      cases hs
      exact (tokensU_sound buf t ht).1
    · rw [if_neg hlen] at hs
      cases hs
  · intro buf ts hs
    rw [splitLoop_zero] at hs
    by_cases hlen : (tokensU buf).length ≤ 15
    · rw [if_pos hlen] at hs
      cases hs
      have hre : tokensU (rejoin (tokensU buf)) = tokensU buf :=
        tokensU_rejoin (tokensU buf) (tokensU_sound buf)
      rw [splitLoop_zero, hre, if_pos hlen]
    · rw [if_neg hlen] at hs
      cases hs

/-- C6 witness: the three parts at the concrete line from the spec. -/
theorem C6_tokenizer_witness :
    splitLoop (toL "  a   b\tc\n") 0 = some [toL "a", toL "b", toL "c"] ∧
    toL "a" ≠ [] ∧
    splitLoop (rejoin [toL "a", toL "b", toL "c"]) 0 =
      some [toL "a", toL "b", toL "c"] :=
  ⟨C6_tokenizer.1,
   C6_tokenizer.2.1 _ _ C6_tokenizer.1 (toL "a") (by simp),
   C6_tokenizer.2.2 _ _ C6_tokenizer.1⟩

/-- C7: a line with more than 15 whitespace-delimited tokens makes runcmd
report the too-many-arguments error and return 0 without invoking any
handler; with at most 15 tokens the gobbling loop succeeds with exactly the
split tokens and no such error occurs. -/
theorem C7_maxargs (table : List (List Char × (List (List Char) → Int)))
    (buf : List Char) :
    ((tokensU buf).length > 15 → runcmd table buf = (RunOutcome.tooMany, 0)) ∧
    ((tokensU buf).length ≤ 15 →
      splitLoop buf 0 = some (tokensU buf) ∧
      (runcmd table buf).1 ≠ RunOutcome.tooMany) := by
  constructor
  · intro hgt
    rw [runcmd, splitLoop_zero, if_neg (by omega)]
  · intro hle
    have hsp : splitLoop buf 0 = some (tokensU buf) := by
      rw [splitLoop_zero, if_pos hle]
    refine ⟨hsp, ?_⟩
    rw [runcmd, hsp]
    cases tokensU buf with
    | nil => simp
    | cons t ts =>
      cases h : List.find? (fun c => c.1 == t) table with
      | none => simp [h]
      | some c => simp [h]

/-- C7 witness: a 16-token line overflows; the line help does not. -/
theorem C7_maxargs_witness :
    runcmd [] (toL "a b c d e f g h i j k l m n o p") = (RunOutcome.tooMany, 0) ∧
    (splitLoop (toL "help") 0 = some [toL "help"] ∧
      (runcmd [] (toL "help")).1 ≠ RunOutcome.tooMany) := by
  have hh : tokensU (toL "help") = [toL "help"] := by
    simp [tokensU, toL, isWhite, notWhite, List.dropWhile, List.takeWhile]
  have h2 := (C7_maxargs [] (toL "help")).2 (by rw [hh]; simp)
  refine ⟨(C7_maxargs [] (toL "a b c d e f g h i j k l m n o p")).1
    (by simp [tokensU, toL, isWhite, notWhite, List.dropWhile, List.takeWhile]),
    ?_, h2.2⟩
  rw [← hh]
  exact h2.1

/-- Concrete table for the C1 counterexample: one command whose handler
returns the application-specific negative code -2. -/
def c1table : List (List Char × (List (List Char) → Int)) :=
  [(toL "x", fun _ => -2)]

/-- Table for the C1 witness: one command whose handler returns -1. -/
def c1wTable : List (List Char × (List (List Char) → Int)) :=
  [(toL "quit", fun _ => -1)]

/-- C1 counterexample: a handler returning -2 (not -1) still terminates the
monitor loop, because line 188 of the source breaks on every negative
runcmd value; the claim says every value other than -1 continues. -/
theorem C1_counterexample :
    (runcmd c1table (toL "x")).2 = -2 ∧
    (runcmd c1table (toL "x")).2 ≠ -1 ∧
    monitorRun c1table [some (toL "x")] = MonEnd.stopped := by
  have h : runcmd c1table (toL "x") = (RunOutcome.ran (toL "x") [toL "x"], -2) := by
    simp [runcmd, splitLoop, c1table, toL, isWhite, notWhite, MAXARGS,
      List.dropWhile, List.takeWhile, List.find?]
  refine ⟨by rw [h], by rw [h]; decide, ?_⟩
  simp [monitorRun, monitorStep, h]

/-- C1 amended: for a line whose first token matches a registered command,
the monitor loop terminates after that line if and only if the invoked
handler returns a negative value; every nonnegative return value, including
application-specific positive codes, continues with the next line. -/
theorem C1_amended (table : List (List Char × (List (List Char) → Int)))
    (buf : List Char) (rest : List (Option (List Char)))
    (t : List Char) (ts : List (List Char)) (nm : List Char)
    (f : List (List Char) → Int)
    (hsp : splitLoop buf 0 = some (t :: ts))
    (hfind : table.find? (fun c => c.1 == t) = some (nm, f)) :
    (runcmd table buf).2 = f (t :: ts) ∧
    (monitorStep table buf = true ↔ f (t :: ts) < 0) ∧
    monitorRun table (some buf :: rest) =
      (if f (t :: ts) < 0 then MonEnd.stopped else monitorRun table rest) := by
  have hrc : runcmd table buf = (RunOutcome.ran nm (t :: ts), f (t :: ts)) := by
    rw [runcmd, hsp]
    dsimp only
    rw [hfind]
  refine ⟨by rw [hrc], ?_, ?_⟩
  · rw [monitorStep, hrc]
    simp
  · simp only [monitorRun]
    rw [monitorStep, hrc]
    by_cases hf : f (t :: ts) < 0
    · simp [hf]
    · simp [hf]

/-- C1 amended witness: the handler returning -1 does stop the loop. -/
theorem C1_amended_witness :
    (runcmd c1wTable (toL "quit")).2 = -1 ∧
    (monitorStep c1wTable (toL "quit") = true ↔ (-1 : Int) < 0) ∧
    monitorRun c1wTable [some (toL "quit")] =
      (if (-1 : Int) < 0 then MonEnd.stopped else monitorRun c1wTable []) := by
  have h := C1_amended c1wTable (toL "quit") [] (toL "quit") [] (toL "quit")
    (fun _ => -1)
    (by simp [splitLoop, toL, isWhite, notWhite, MAXARGS, List.dropWhile,
      List.takeWhile])
    (by simp [c1wTable, List.find?])
  exact h

/-- C9: a nonblank line whose first token matches no registered command name
makes runcmd report it unknown and return 0, and the monitor loop goes on
with the next line rather than terminating. -/
theorem C9_unknown (table : List (List Char × (List (List Char) → Int)))
    (htable : table.map Prod.fst = commandNames)
    (buf t : List Char) (ts : List (List Char))
    (rest : List (Option (List Char)))
    (hsp : splitLoop buf 0 = some (t :: ts))
    (hnot : t ∉ commandNames) :
    runcmd table buf = (RunOutcome.unknown t, 0) ∧
    monitorRun table (some buf :: rest) = monitorRun table rest := by
  have hfind : table.find? (fun c => c.1 == t) = none := by
    apply List.find?_eq_none.mpr
    intro c hc
    have hmem : c.1 ∈ commandNames := by
      rw [← htable]
      exact List.mem_map_of_mem Prod.fst hc
    simp only [beq_iff_eq]
    intro heq
    exact hnot (heq ▸ hmem)
  have hrc : runcmd table buf = (RunOutcome.unknown t, 0) := by
    rw [runcmd, hsp]
    dsimp only
    rw [hfind]
  refine ⟨hrc, ?_⟩
  simp only [monitorRun]
  rw [monitorStep, hrc]
  simp

/-- Table with the real registry names and all-zero handlers, for witnesses. -/
def zeroTable : List (List Char × (List (List Char) → Int)) :=
  commands.map (fun c => (c.1, fun _ => 0))

/-- C9 witness: the unregistered command frobnicate at the real registry names. -/
theorem C9_unknown_witness :
    runcmd zeroTable (toL "frobnicate") =
      (RunOutcome.unknown (toL "frobnicate"), 0) ∧
    monitorRun zeroTable [some (toL "frobnicate")] = monitorRun zeroTable [] := by
  have h := C9_unknown zeroTable
    (by simp [zeroTable, commandNames, List.map_map])
    (toL "frobnicate") (toL "frobnicate") [] []
    (by simp [splitLoop, toL, isWhite, notWhite, MAXARGS, List.dropWhile,
      List.takeWhile])
    (by decide)
  exact h

/-- Whenever the backtrace walk terminates, its return value is the 0 of
line 82. -/
theorem mon_backtrace_rc (mem : Nat → Nat) (res : Nat → Option Eipdebuginfo) :
    ∀ (fuel ebp : Nat) (info : Eipdebuginfo) (out : List BtLine × Int),
      mon_backtrace mem res ebp info fuel = some out → out.2 = 0 := by
  intro fuel
  induction fuel with
  | zero =>
    intro ebp info out h
    by_cases he : ebp = 0
    · simp [mon_backtrace, he] at h
      rw [← h]
    · simp [mon_backtrace, he] at h
  | succ n ih =>
    intro ebp info out h
    by_cases he : ebp = 0
    · simp [mon_backtrace, he] at h
      rw [← h]
    · rw [mon_backtrace] at h
      rw [if_neg he] at h
      dsimp only at h
      cases hres : res (mem (ebp + 4)) with
      | some ni =>
        rw [hres] at h
        dsimp only at h
        cases hrec : mon_backtrace mem res (mem ebp) ni n with
        | some out2 =>
          rw [hrec] at h
          dsimp only at h
          cases h
          exact ih (mem ebp) ni out2 hrec
        | none => rw [hrec] at h; cases h
      | none =>
        rw [hres] at h
        dsimp only at h
        cases hrec : mon_backtrace mem res (mem ebp) info n with
        | some out2 =>
          rw [hrec] at h
          dsimp only at h
          cases h
          exact ih (mem ebp) info out2 hrec
        | none => rw [hrec] at h; cases h

/-- mon_showmappings returns 0 on every invocation (every branch). -/
theorem mon_showmappings_rc (lookup : Nat → Option (Nat × Nat))
    (argv : List (List Char)) : (mon_showmappings lookup argv).2 = 0 := by
  unfold mon_showmappings
  dsimp only
  split_ifs <;> rfl

/-- With a table whose handlers all return 0, runcmd returns 0 on every line. -/
theorem runcmd_zero (table : List (List Char × (List (List Char) → Int)))
    (h : ∀ c ∈ table, ∀ argv, c.2 argv = (0 : Int)) (buf : List Char) :
    (runcmd table buf).2 = 0 := by
  rw [runcmd]
  cases splitLoop buf 0 with
  | none => rfl
  | some ts =>
    cases ts with
    | nil => rfl
    | cons t ts =>
      dsimp only
      cases hf : table.find? (fun c => c.1 == t) with
      | none => rfl
      | some c =>
        dsimp only
        exact h c (List.mem_of_find?_eq_some hf) (t :: ts)

/-- With a table whose handlers all return 0, the monitor loop consumes
every input line and never stops. -/
theorem monitorRun_exhausted (table : List (List Char × (List (List Char) → Int)))
    (h : ∀ c ∈ table, ∀ argv, c.2 argv = (0 : Int)) :
    ∀ inputs, monitorRun table inputs = MonEnd.exhausted := by
  intro inputs
  induction inputs with
  | nil => rfl
  | cons i rest ih =>
    cases i with
    | none => simpa [monitorRun] using ih
    | some buf =>
      rw [monitorRun, monitorStep, runcmd_zero table h buf]
      simpa using ih

/-- C10: every registered handler returns 0 on every invocation (backtrace on
every terminating walk), so runcmd over any table of such handlers always
returns the nonnegative value 0 and the monitor loop never terminates via
the negative-return sentinel. -/
theorem C10_handlers_zero :
    (∀ argv, (mon_help argv).2 = 0) ∧
    (∀ KERNBASE ks argv, (mon_kerninfo KERNBASE ks argv).2 = 0) ∧
    (∀ mem res ebp info fuel out,
        mon_backtrace mem res ebp info fuel = some out → out.2 = 0) ∧
    (∀ lookup argv, (mon_showmappings lookup argv).2 = 0) ∧
    (∀ table, (∀ c ∈ table, ∀ argv, c.2 argv = (0 : Int)) →
      ∀ buf, (runcmd table buf).2 = 0 ∧ ¬ (runcmd table buf).2 < 0) ∧
    (∀ table, (∀ c ∈ table, ∀ argv, c.2 argv = (0 : Int)) →
      ∀ inputs, monitorRun table inputs = MonEnd.exhausted) := by
  refine ⟨fun argv => rfl, fun KERNBASE ks argv => rfl,
    fun mem res ebp info fuel out h => mon_backtrace_rc mem res fuel ebp info out h,
    mon_showmappings_rc, ?_, monitorRun_exhausted⟩
  intro table h buf
  have hz := runcmd_zero table h buf
  exact ⟨hz, by rw [hz]; decide⟩

/-- C10 witness: the conjuncts at concrete arguments, the table one at the
real registry names with zero handlers. -/
theorem C10_handlers_zero_witness :
    (mon_help [toL "help"]).2 = 0 ∧
    ((runcmd zeroTable (toL "backtrace")).2 = 0 ∧
      ¬ (runcmd zeroTable (toL "backtrace")).2 < 0) ∧
    monitorRun zeroTable [some (toL "backtrace"), none] = MonEnd.exhausted := by
  have hz : ∀ c ∈ zeroTable, ∀ argv, c.2 argv = (0 : Int) := by
    intro c hc argv
    rw [zeroTable, List.mem_map] at hc
    obtain ⟨x, hx, rfl⟩ := hc
    rfl
  exact ⟨C10_handlers_zero.1 [toL "help"],
    C10_handlers_zero.2.2.2.2.1 zeroTable hz (toL "backtrace"),
    C10_handlers_zero.2.2.2.2.2 zeroTable hz [some (toL "backtrace"), none]⟩

/-- The record state debuginfo_eip leaves behind after the lookup of one
frame: its own output on success, the record it was handed on failure. -/
def infoAfter (res : Nat → Option Eipdebuginfo) (l : BtLine) : Eipdebuginfo :=
  match res l.eip with
  | some ni => ni
  | none => l.infoPassed

/-- The record passed to the first lookup of a backtrace walk is the one the
walk starts with, and each later lookup receives the record state left by
the lookup of the frame before it. -/
theorem mon_backtrace_info_flow (mem : Nat → Nat)
    (res : Nat → Option Eipdebuginfo) :
    ∀ (fuel ebp : Nat) (info : Eipdebuginfo) (lines : List BtLine) (rc : Int),
      mon_backtrace mem res ebp info fuel = some (lines, rc) →
      ((lines.map BtLine.infoPassed).head? = none ∨
        (lines.map BtLine.infoPassed).head? = some info) ∧
      List.Chain' (fun a b => b.infoPassed = infoAfter res a) lines := by
  intro fuel
  induction fuel with
  | zero =>
    intro ebp info lines rc h
    by_cases he : ebp = 0
    · simp [mon_backtrace, he] at h
      obtain ⟨rfl, -⟩ := h
      simp
    · simp [mon_backtrace, he] at h
  | succ n ih =>
    intro ebp info lines rc h
    by_cases he : ebp = 0
    · simp [mon_backtrace, he] at h
      obtain ⟨rfl, -⟩ := h
      simp
    · rw [mon_backtrace] at h
      rw [if_neg he] at h
      dsimp only at h
      cases hres : res (mem (ebp + 4)) with
      | some ni =>
        rw [hres] at h
        dsimp only at h
        cases hrec : mon_backtrace mem res (mem ebp) ni n with
        | some out2 =>
          rw [hrec] at h
          dsimp only at h
          have hl : lines = ⟨ebp, mem (ebp + 4),
              (List.range 5).map (fun i => mem (ebp + 4 * (2 + i))),
              info, some ni⟩ :: out2.1 := by
            have := Option.some.inj h
            exact (Prod.mk.injEq .. ▸ this).1.symm
          subst hl
          obtain ⟨hhead, hchain⟩ := ih (mem ebp) ni out2.1 out2.2 (by rw [hrec])
          refine ⟨Or.inr (by simp), ?_⟩
          rw [List.chain'_cons']
          refine ⟨?_, hchain⟩
          intro b hb
          cases hh : out2.1.head? with
          | none => rw [hh] at hb; cases hb
          | some b2 =>
            rw [hh] at hb
            have hb2 : b2 = b := by simpa using hb
            subst hb2
            rcases hhead with hnone | hsome
            · rw [List.head?_map, hh] at hnone
              simp at hnone
            · rw [List.head?_map, hh] at hsome
              have hpi : b2.infoPassed = ni := by simpa using hsome
              rw [infoAfter]
              dsimp only
              rw [hres]
              exact hpi
        | none => rw [hrec] at h; cases h
      | none =>
        rw [hres] at h
        dsimp only at h
        cases hrec : mon_backtrace mem res (mem ebp) info n with
        | some out2 =>
          rw [hrec] at h
          dsimp only at h
          have hl : lines = ⟨ebp, mem (ebp + 4),
              (List.range 5).map (fun i => mem (ebp + 4 * (2 + i))),
              info, none⟩ :: out2.1 := by
            have := Option.some.inj h
            exact (Prod.mk.injEq .. ▸ this).1.symm
          subst hl
          obtain ⟨hhead, hchain⟩ := ih (mem ebp) info out2.1 out2.2 (by rw [hrec])
          refine ⟨Or.inr (by simp), ?_⟩
          rw [List.chain'_cons']
          refine ⟨?_, hchain⟩
          intro b hb
          cases hh : out2.1.head? with
          | none => rw [hh] at hb; cases hb
          | some b2 =>
            rw [hh] at hb
            have hb2 : b2 = b := by simpa using hb
            subst hb2
            rcases hhead with hnone | hsome
            · rw [List.head?_map, hh] at hnone
              simp at hnone
            · rw [List.head?_map, hh] at hsome
              have hpi : b2.infoPassed = info := by simpa using hsome
              rw [infoAfter]
              dsimp only
              rw [hres]
              exact hpi
        | none => rw [hrec] at h; cases h

/-- Memory for the C4 counterexample: a two-frame chain at 0x1000 whose
saved frame pointer leads to 0x2000, whose saved frame pointer is null. -/
def c4mem : Nat → Nat := fun a =>
  if a = 4096 then 8192
  else if a = 4100 then 273
  else if a = 8196 then 546
  else 0

/-- A successful (and nonzero) resolution record for the C4 counterexample. -/
def c4info : Eipdebuginfo := ⟨toL "kern/entry.S", 44, toL "start", 5, 16⟩

/-- Symbol resolver for the C4 counterexample: resolves only the first
frame's return address. -/
def c4res : Nat → Option Eipdebuginfo := fun eip =>
  if eip = 273 then some c4info else none

/-- C4 counterexample: on a two-frame chain whose first return address
resolves, the record handed to the second frame's lookup is the first
resolution's output, not a fresh zero record - the memset of line 65 runs
once before the loop, not before every lookup. -/
theorem C4_counterexample :
    (mon_backtrace_run c4mem c4res 4096 2).map
      (fun out => out.1.map BtLine.infoPassed) = some [zeroInfo, c4info] ∧
    c4info ≠ zeroInfo := by
  constructor <;> decide

/-- C4 amended: the SymbolInfo record is zero-initialized exactly once,
immediately before the first per-frame lookup; every later lookup receives
the record precisely as the previous frame's lookup left it (the previous
successful resolution's output, or unchanged on failure). -/
theorem C4_amended (mem : Nat → Nat) (res : Nat → Option Eipdebuginfo)
    (ebp fuel : Nat) (lines : List BtLine) (rc : Int)
    (h : mon_backtrace_run mem res ebp fuel = some (lines, rc)) :
    ((lines.map BtLine.infoPassed).head? = none ∨
      (lines.map BtLine.infoPassed).head? = some zeroInfo) ∧
    List.Chain' (fun a b => b.infoPassed = infoAfter res a) lines :=
  mon_backtrace_info_flow mem res fuel ebp zeroInfo lines rc h

/-- First line of the C4 amended witness trace. -/
def c4l1 : BtLine := ⟨4096, 273, [0, 0, 0, 0, 0], zeroInfo, some c4info⟩

/-- Second line of the C4 amended witness trace. -/
def c4l2 : BtLine := ⟨8192, 546, [0, 0, 0, 0, 0], c4info, none⟩

/-- C4 amended witness: the amended statement at the concrete two-frame walk. -/
theorem C4_amended_witness :
    ((([c4l1, c4l2]).map BtLine.infoPassed).head? = none ∨
      (([c4l1, c4l2]).map BtLine.infoPassed).head? = some zeroInfo) ∧
    List.Chain' (fun a b => b.infoPassed = infoAfter c4res a) [c4l1, c4l2] :=
  C4_amended c4mem c4res 4096 2 [c4l1, c4l2] 0 (by decide)

/-- A frame-pointer chain through memory: each listed cursor value is
non-null, each is followed by the value saved at its own address, and the
value saved at the last one is null. -/
def chainB (mem : Nat → Nat) : List Nat → Bool
  | [] => true
  | [e] => e != 0 && mem e == 0
  | e :: e2 :: rest => e != 0 && mem e == e2 && chainB mem (e2 :: rest)

/-- What mon_backtrace prints for one frame at cursor e: the cursor value,
the return address one word above it, and the five words above the return
address. -/
def frameView (mem : Nat → Nat) (e : Nat) : Nat × Nat × List Nat :=
  (e, mem (e + 4), (List.range 5).map (fun i => mem (e + 4 * (2 + i))))

/-- The frame-wise content of a backtrace result: frame pointer, return
address and argument words of every line, plus the return value. -/
def btView (out : List BtLine × Int) : List (Nat × Nat × List Nat) × Int :=
  (out.1.map (fun l => (l.ebp, l.eip, l.args)), out.2)

/-- C5 helper, generalized over the record state: on a chain that reaches a
null saved frame pointer, the walk terminates and prints exactly one line
per frame, innermost first, with the frame pointer, the return address one
word above it, and the five words above that. -/
theorem mon_backtrace_chain : ∀ (fps : List Nat) (mem : Nat → Nat)
    (res : Nat → Option Eipdebuginfo) (info : Eipdebuginfo) (fuel : Nat),
    chainB mem fps = true → fps.length ≤ fuel →
    (mon_backtrace mem res (fps.headD 0) info fuel).map btView =
      some (fps.map (frameView mem), 0) := by
  intro fps
  induction fps with
  | nil =>
    intro mem res info fuel _ _
    cases fuel with
    | zero => simp [mon_backtrace, btView]
    | succ n => simp [mon_backtrace, btView]
  | cons e fps ih =>
    intro mem res info fuel hch hfl
    cases fuel with
    | zero => simp at hfl
    | succ n =>
      obtain ⟨he, hnext, hch2⟩ :
          e ≠ 0 ∧ mem e = fps.headD 0 ∧ chainB mem fps = true := by
        cases fps with
        | nil =>
          simp [chainB] at hch
          exact ⟨hch.1, by simpa using hch.2, rfl⟩
        | cons e2 rest =>
          simp [chainB] at hch
          exact ⟨hch.1.1, by simpa using hch.1.2, hch.2⟩
      have hfl2 : fps.length ≤ n := by simpa using hfl
      show (mon_backtrace mem res e info (n + 1)).map btView = _
      rw [mon_backtrace]
      rw [if_neg he]
      dsimp only
      cases hres : res (mem (e + 4)) with
      | some ni =>
        dsimp only
        have ihh := ih mem res ni n hch2 hfl2
        rw [← hnext] at ihh
        cases hrec : mon_backtrace mem res (mem e) ni n with
        | some out2 =>
          rw [hrec] at ihh
          dsimp only
          simp only [Option.map_some'] at ihh ⊢
          have hpair := Option.some.inj ihh
          rw [btView] at hpair ⊢
          dsimp only at hpair ⊢
          have h1 : out2.1.map (fun l => (l.ebp, l.eip, l.args)) =
              fps.map (frameView mem) := congrArg Prod.fst hpair
          have h2 : out2.2 = 0 := congrArg Prod.snd hpair
          rw [List.map_cons, h1, h2]
          rfl
        | none =>
          rw [hrec] at ihh
          simp at ihh
      | none =>
        dsimp only
        have ihh := ih mem res info n hch2 hfl2
        rw [← hnext] at ihh
        cases hrec : mon_backtrace mem res (mem e) info n with
        | some out2 =>
          rw [hrec] at ihh
          dsimp only
          simp only [Option.map_some'] at ihh ⊢
          have hpair := Option.some.inj ihh
          rw [btView] at hpair ⊢
          dsimp only at hpair ⊢
          have h1 : out2.1.map (fun l => (l.ebp, l.eip, l.args)) =
              fps.map (frameView mem) := congrArg Prod.fst hpair
          have h2 : out2.2 = 0 := congrArg Prod.snd hpair
          rw [List.map_cons, h1, h2]
          rfl
        | none =>
          rw [hrec] at ihh
          simp at ihh

/-- C5: for every frame-pointer chain whose terminal saved value is null,
mon_backtrace terminates and prints exactly one line per frame in
innermost-first order, each line showing the cursor value, the return
address read one word above it, and the five words stored above the return
address. -/
theorem C5_backtrace (mem : Nat → Nat) (res : Nat → Option Eipdebuginfo)
    (fps : List Nat) (fuel : Nat)
    (hchain : chainB mem fps = true) (hfuel : fps.length ≤ fuel) :
    (mon_backtrace_run mem res (fps.headD 0) fuel).map btView =
      some (fps.map (frameView mem), 0) :=
  mon_backtrace_chain fps mem res zeroInfo fuel hchain hfuel

/-- Memory for the C5 witness: a synthetic three-frame chain
0x3000 to 0x2000 to 0x1000, the last saved frame pointer being null. -/
def c5mem : Nat → Nat := fun a =>
  if a = 12288 then 8192
  else if a = 12292 then 111
  else if a = 8192 then 4096
  else if a = 8196 then 222
  else if a = 4100 then 333
  else 0

/-- Resolver for the C5 witness: resolution always fails. -/
def c5res : Nat → Option Eipdebuginfo := fun _ => none

/-- C5 witness: the three-frame chain at the concrete memory. -/
theorem C5_backtrace_witness :
    chainB c5mem [12288, 8192, 4096] = true ∧
    (mon_backtrace_run c5mem c5res
        (([12288, 8192, 4096] : List Nat).headD 0) 3).map btView =
      some (([12288, 8192, 4096] : List Nat).map (frameView c5mem), 0) :=
  ⟨by decide,
   C5_backtrace c5mem c5res [12288, 8192, 4096] 3 (by decide) (by decide)⟩

/-- Page resolver for the C2 record: page 0x1000 is mapped with only the
present flag, page 0x2000 with present, user and writable all set. -/
def c2lookup : Nat → Option (Nat × Nat) := fun va =>
  if va = 4096 then some (20480, 1)
  else if va = 8192 then some (24576, 7)
  else none

/-- C2: over the pages 0x1000 (flags P only) and 0x2000 (flags P, U and W),
the source prints P/X/X for both: the X written into the shared perm buffer
while rendering the first page survives into the second page's row, although
rendering the second page's flags alone yields P/U/W (second conjunct).
The printed string is therefore not a function of the page's own flags. -/
theorem C2_stale_perm :
    mon_showmappings c2lookup [toL "showmappings", toL "1000", toL "3000"] =
      ([SMOut.header, SMOut.mapped 4096 20480 (toL "P/X/X"),
        SMOut.mapped 8192 24576 (toL "P/X/X")], 0) ∧
    applyPerm 7 permInit = toL "P/U/W" := by
  constructor
  · simp [mon_showmappings, smLoop, c2lookup, strtol16, hexVal, hexDigitVal,
      isHexDigit, ROUNDDOWN, ROUNDUP, U32, PGSIZE, permInit, applyPerm, PERM,
      PTE_P, PTE_U, PTE_W, toL, List.takeWhile, List.dropWhile]
    decide
  · decide

/-- Rounding down to a page start produces a multiple of the page size. -/
theorem dvd_ROUNDDOWN (a n : Nat) : n ∣ ROUNDDOWN a n := by
  have h := Nat.div_add_mod a n
  refine ⟨a / n, ?_⟩
  rw [ROUNDDOWN]
  omega

/-- Rounding up to a page end produces a multiple of the page size. -/
theorem dvd_ROUNDUP (a n : Nat) : n ∣ ROUNDUP a n := by
  rw [ROUNDUP]
  exact dvd_ROUNDDOWN _ n

/-- The page loop visits b, b + PGSIZE, ... for exactly m steps when the
end is b + PGSIZE * m. -/
theorem smLoop_va_count : ∀ (m : Nat) (lookup : Nat → Option (Nat × Nat))
    (b : Nat) (perm : List Char),
    (smLoop lookup b (b + PGSIZE * m) perm).map smVa =
      List.range' b m PGSIZE := by
  intro m
  induction m with
  | zero =>
    intro lookup b perm
    rw [smLoop]
    simp
  | succ k ih =>
    intro lookup b perm
    rw [smLoop]
    rw [if_pos (by
      have h1 : 0 < PGSIZE := by norm_num [PGSIZE]
      exact Nat.lt_add_of_pos_right (Nat.mul_pos h1 (Nat.succ_pos k)))]
    have harg : b + PGSIZE * (k + 1) = (b + PGSIZE) + PGSIZE * k := by ring
    cases hlk : lookup b with
    | some pr =>
      cases pr with
      | mk pa pte =>
        dsimp only
        rw [List.map_cons]
        rw [List.range'_succ]
        rw [show smVa (SMOut.mapped b pa (applyPerm pte perm)) = b from rfl]
        rw [harg]
        rw [ih lookup (b + PGSIZE) (applyPerm pte perm)]
    | none =>
      dsimp only
      rw [List.map_cons]
      rw [List.range'_succ]
      rw [show smVa (SMOut.unmapped b) = b from rfl]
      rw [harg]
      rw [ih lookup (b + PGSIZE) perm]

/-- On page-aligned bounds the loop prints exactly the pages of
[b, e) in order: (e - b) / PGSIZE rows, with truncated subtraction. -/
theorem smLoop_range (lookup : Nat → Option (Nat × Nat)) (b e : Nat)
    (perm : List Char) (hb : PGSIZE ∣ b) (he : PGSIZE ∣ e) :
    (smLoop lookup b e perm).map smVa =
      List.range' b ((e - b) / PGSIZE) PGSIZE := by
  rcases le_or_lt e b with hle | hlt
  · rw [smLoop, if_neg (by omega)]
    rw [Nat.sub_eq_zero_of_le hle]
    simp
  · obtain ⟨k, hk⟩ : PGSIZE ∣ (e - b) := Nat.dvd_sub' he hb
    have he2 : e = b + PGSIZE * k := by omega
    rw [he2, smLoop_va_count]
    congr 1
    have : b + PGSIZE * k - b = PGSIZE * k := by omega
    rw [this, Nat.mul_div_cancel_left k (by norm_num [PGSIZE])]

/-- With one cleanly parsed address the handler prints the header and then
the loop over one page starting at the rounded-down address, the exclusive
end being computed in uint32_t. -/
theorem mon_showmappings_one_addr (lookup : Nat → Option (Nat × Nat))
    (c s1 : List Char) (a1 : Nat) (h1 : strtol16 s1 = (a1, [])) :
    mon_showmappings lookup [c, s1] =
      (SMOut.header :: smLoop lookup (ROUNDDOWN (a1 % U32) PGSIZE)
        ((ROUNDDOWN (a1 % U32) PGSIZE + PGSIZE) % U32) permInit, 0) := by
  simp [mon_showmappings, h1]

/-- With two cleanly parsed addresses the handler prints the header and the
loop from the rounded-down first address to the rounded-up second address,
both reduced to uint32_t range. -/
theorem mon_showmappings_two_addr (lookup : Nat → Option (Nat × Nat))
    (c s1 s2 : List Char) (a1 a2 : Nat)
    (h1 : strtol16 s1 = (a1, [])) (h2 : strtol16 s2 = (a2, [])) :
    mon_showmappings lookup [c, s1, s2] =
      (SMOut.header :: smLoop lookup (ROUNDDOWN (a1 % U32) PGSIZE)
        (ROUNDUP (a2 % U32) PGSIZE % U32) permInit, 0) := by
  simp [mon_showmappings, h1, h2]

/-- C3 counterexample: the single address fffff000 parses cleanly, but the
end computed as begin + PGSIZE in uint32_t wraps to 0, so the handler
prints the header and zero table rows, not exactly one row. -/
theorem C3_counterexample :
    strtol16 (toL "fffff000") = (4294963200, []) ∧
    mon_showmappings (fun _ => none) [toL "showmappings", toL "fffff000"] =
      ([SMOut.header], 0) := by
  constructor
  · decide
  · simp [mon_showmappings, smLoop, strtol16, hexVal, hexDigitVal, isHexDigit,
      ROUNDDOWN, ROUNDUP, U32, PGSIZE, toL, List.takeWhile, List.dropWhile]

/-- C3 amended: with one cleanly parsed address A the iterated range is
[roundDown(A mod 2^32, 4096), (roundDown(A mod 2^32, 4096) + 4096) mod 2^32)
and the row count is (end - begin) / 4096 with truncated subtraction - one
row unless the end wraps to 0; with two cleanly parsed addresses the range
runs to roundUp(B mod 2^32, 4096) mod 2^32 with the same truncated row
count, and no off-by-one occurs on already-aligned inputs. -/
theorem C3_amended (lookup : Nat → Option (Nat × Nat)) (c s1 s2 : List Char)
    (a1 a2 : Nat) (h1 : strtol16 s1 = (a1, [])) (h2 : strtol16 s2 = (a2, [])) :
    (mon_showmappings lookup [c, s1] =
      (SMOut.header :: smLoop lookup (ROUNDDOWN (a1 % U32) PGSIZE)
        ((ROUNDDOWN (a1 % U32) PGSIZE + PGSIZE) % U32) permInit, 0) ∧
     (smLoop lookup (ROUNDDOWN (a1 % U32) PGSIZE)
        ((ROUNDDOWN (a1 % U32) PGSIZE + PGSIZE) % U32) permInit).map smVa =
       List.range' (ROUNDDOWN (a1 % U32) PGSIZE)
         (((ROUNDDOWN (a1 % U32) PGSIZE + PGSIZE) % U32 -
           ROUNDDOWN (a1 % U32) PGSIZE) / PGSIZE) PGSIZE ∧
     (smLoop lookup (ROUNDDOWN (a1 % U32) PGSIZE)
        ((ROUNDDOWN (a1 % U32) PGSIZE + PGSIZE) % U32) permInit).length =
       ((ROUNDDOWN (a1 % U32) PGSIZE + PGSIZE) % U32 -
         ROUNDDOWN (a1 % U32) PGSIZE) / PGSIZE) ∧
    (mon_showmappings lookup [c, s1, s2] =
      (SMOut.header :: smLoop lookup (ROUNDDOWN (a1 % U32) PGSIZE)
        (ROUNDUP (a2 % U32) PGSIZE % U32) permInit, 0) ∧
     (smLoop lookup (ROUNDDOWN (a1 % U32) PGSIZE)
        (ROUNDUP (a2 % U32) PGSIZE % U32) permInit).map smVa =
       List.range' (ROUNDDOWN (a1 % U32) PGSIZE)
         ((ROUNDUP (a2 % U32) PGSIZE % U32 -
           ROUNDDOWN (a1 % U32) PGSIZE) / PGSIZE) PGSIZE ∧
     (smLoop lookup (ROUNDDOWN (a1 % U32) PGSIZE)
        (ROUNDUP (a2 % U32) PGSIZE % U32) permInit).length =
       (ROUNDUP (a2 % U32) PGSIZE % U32 -
         ROUNDDOWN (a1 % U32) PGSIZE) / PGSIZE) := by
  have hdvdU : PGSIZE ∣ U32 := by norm_num [PGSIZE, U32]
  have hb : PGSIZE ∣ ROUNDDOWN (a1 % U32) PGSIZE := dvd_ROUNDDOWN _ _
  have he1 : PGSIZE ∣ (ROUNDDOWN (a1 % U32) PGSIZE + PGSIZE) % U32 :=
    (Nat.dvd_mod_iff hdvdU).mpr (Dvd.dvd.add hb dvd_rfl)
  have he2 : PGSIZE ∣ ROUNDUP (a2 % U32) PGSIZE % U32 :=
    (Nat.dvd_mod_iff hdvdU).mpr (dvd_ROUNDUP _ _)
  have hr1 := smLoop_range lookup _ _ permInit hb he1
  have hr2 := smLoop_range lookup _ _ permInit hb he2
  refine ⟨⟨mon_showmappings_one_addr lookup c s1 a1 h1, hr1, ?_⟩,
    ⟨mon_showmappings_two_addr lookup c s1 s2 a1 a2 h1 h2, hr2, ?_⟩⟩
  · have := congrArg List.length hr1
    simpa using this
  · have := congrArg List.length hr2
    simpa using this

/-- C3 amended witness: the amended statement at the spec inputs 1000 and
3000 with every page unmapped. -/
theorem C3_amended_witness :
    (mon_showmappings (fun _ => none) [toL "showmappings", toL "1000"] =
      (SMOut.header :: smLoop (fun _ => none) (ROUNDDOWN (4096 % U32) PGSIZE)
        ((ROUNDDOWN (4096 % U32) PGSIZE + PGSIZE) % U32) permInit, 0) ∧
     (smLoop (fun _ => none) (ROUNDDOWN (4096 % U32) PGSIZE)
        ((ROUNDDOWN (4096 % U32) PGSIZE + PGSIZE) % U32) permInit).map smVa =
       List.range' (ROUNDDOWN (4096 % U32) PGSIZE)
         (((ROUNDDOWN (4096 % U32) PGSIZE + PGSIZE) % U32 -
           ROUNDDOWN (4096 % U32) PGSIZE) / PGSIZE) PGSIZE ∧
     (smLoop (fun _ => none) (ROUNDDOWN (4096 % U32) PGSIZE)
        ((ROUNDDOWN (4096 % U32) PGSIZE + PGSIZE) % U32) permInit).length =
       ((ROUNDDOWN (4096 % U32) PGSIZE + PGSIZE) % U32 -
         ROUNDDOWN (4096 % U32) PGSIZE) / PGSIZE) ∧
    (mon_showmappings (fun _ => none) [toL "showmappings", toL "1000", toL "3000"] =
      (SMOut.header :: smLoop (fun _ => none) (ROUNDDOWN (4096 % U32) PGSIZE)
        (ROUNDUP (12288 % U32) PGSIZE % U32) permInit, 0) ∧
     (smLoop (fun _ => none) (ROUNDDOWN (4096 % U32) PGSIZE)
        (ROUNDUP (12288 % U32) PGSIZE % U32) permInit).map smVa =
       List.range' (ROUNDDOWN (4096 % U32) PGSIZE)
         ((ROUNDUP (12288 % U32) PGSIZE % U32 -
           ROUNDDOWN (4096 % U32) PGSIZE) / PGSIZE) PGSIZE ∧
     (smLoop (fun _ => none) (ROUNDDOWN (4096 % U32) PGSIZE)
        (ROUNDUP (12288 % U32) PGSIZE % U32) permInit).length =
       (ROUNDUP (12288 % U32) PGSIZE % U32 -
         ROUNDDOWN (4096 % U32) PGSIZE) / PGSIZE) :=
  C3_amended (fun _ => none) (toL "showmappings") (toL "1000") (toL "3000")
    4096 12288 (by decide) (by decide)

/-- C8: whenever an address argument of mon_showmappings leaves a trailing
non-hexadecimal remainder, the handler prints only the wrong-address
message - no header and no table rows - and returns 0. -/
theorem C8_parse_error (lookup : Nat → Option (Nat × Nat)) :
    (∀ c s1 : List Char, (strtol16 s1).2 ≠ [] →
      mon_showmappings lookup [c, s1] = ([SMOut.wrongAddress], 0)) ∧
    (∀ c s1 s2 : List Char, (strtol16 s1).2 ≠ [] →
      mon_showmappings lookup [c, s1, s2] = ([SMOut.wrongAddress], 0)) ∧
    (∀ c s1 s2 : List Char, (strtol16 s1).2 = [] → (strtol16 s2).2 ≠ [] →
      mon_showmappings lookup [c, s1, s2] = ([SMOut.wrongAddress], 0)) := by
  refine ⟨?_, ?_, ?_⟩
  · intro c s1 hne
    simp [mon_showmappings, hne]
  · intro c s1 s2 hne
    simp [mon_showmappings, hne]
  · intro c s1 s2 h1 h2
    simp [mon_showmappings, h1, h2]

/-- C8 witness: showmappings zz prints the wrong-address message only. -/
theorem C8_parse_error_witness :
    mon_showmappings (fun _ => none) [toL "showmappings", toL "zz"] =
      ([SMOut.wrongAddress], 0) :=
  (C8_parse_error (fun _ => none)).1 (toL "showmappings") (toL "zz") (by decide)
